import Mathlib

/-!
# Verification of `hummingbot/strategy/strategy_base.pyx`

Shallow embedding of the strategy-base / arbitrage-strategy core:
the guarded order placement entry points, the order-tracking state,
the per-pair readiness gate, the dispatch logic, the tick control flow,
and the depth-aware order-book matching loop
(`c_find_profitable_arbitrage_orders`).

Numbers are modelled as rationals (`ℚ`). Python `Decimal` vs `float`
dynamic typing is modelled by the `PyNum` type, so that the
`isinstance(x, Decimal)` validation in the placement functions is
expressible. External collaborators (market connectors, the order
tracker's clock, the exchange-rate service) are modelled as explicit
parameters or state fields, following the interfaces they expose to
this file's code.
-/

/-- Python `OrderType` enum: `LIMIT` and `MARKET`. -/
inductive PyOrderType where
  | limit
  | market
deriving DecidableEq, Repr

/-- A Python number as passed to the placement functions: either a
`Decimal` (possibly the `Decimal("NaN")` sentinel) or a binary float.
`isinstance(x, Decimal)` holds exactly for the `dec` constructor. -/
inductive PyNum where
  | dec (isNaN : Bool) (val : ℚ)
  | flt (val : ℚ)
deriving DecidableEq, Repr

/-- `isinstance(x, Decimal)`. -/
def PyNum.isDec : PyNum → Bool
  | .dec _ _ => true
  | .flt _ => false

/-- `float(x)` — the numeric value carried by the Python number. -/
def PyNum.toRat : PyNum → ℚ
  | .dec _ v => v
  | .flt v => v

/-- `decimal_nan = Decimal("NaN")` (module-level constant, line 24). -/
def decimal_nan : PyNum := .dec true 0

/-- `MarketSymbolPair`: (market, trading pair, base asset, quote asset).
Markets and symbols are identified by numeric codes. -/
structure MarketSymbolPair where
  market : ℕ
  tradingPair : ℕ
  baseAsset : ℕ
  quoteAsset : ℕ
deriving DecidableEq, Repr

/-- An order handed to a market's `c_buy` / `c_sell` (the values the
market connector receives from `c_buy_with_specific_market` /
`c_sell_with_specific_market`). -/
structure SubmittedOrder where
  market : ℕ
  tradingPair : ℕ
  isBuy : Bool
  amount : ℚ
  orderType : PyOrderType
  price : PyNum
  expirationTs : ℚ
deriving DecidableEq, Repr

/-- An entry of the order tracker, created by
`c_start_tracking_limit_order` / `c_start_tracking_market_order`.
Modelled from the spec: the `OrderTracker` class itself lives outside
this file; per the spec a `TrackedOrder` carries (order id, owning
market pair, side, kind, price for limit orders only, quantity,
creation timestamp). -/
structure TrackedEntry where
  pair : MarketSymbolPair
  orderId : ℕ
  isBuy : Bool
  isLimit : Bool
  price : Option PyNum
  quantity : ℚ
  timestamp : ℚ
deriving DecidableEq, Repr

/-- The eight market event kinds subscribed in `c_add_markets`. -/
inductive MarketEventTag where
  | buyOrderCreated
  | sellOrderCreated
  | orderFilled
  | orderFailure
  | orderCancelled
  | orderExpired
  | buyOrderCompleted
  | sellOrderCompleted
deriving DecidableEq, Repr

/-- The listener subscriptions issued per market in `c_add_markets`,
in source order (lines 266-273). -/
def listenerTags : List MarketEventTag :=
  [.buyOrderCreated, .sellOrderCreated, .orderFilled, .orderFailure,
   .orderCancelled, .orderExpired, .buyOrderCompleted, .sellOrderCompleted]

/-- The mutable strategy state touched by the embedded functions:
the active market set (`_sb_markets`), the delegate lock
(`_sb_delegate_lock`), the clock (`_current_timestamp`), the order
tracker's entries, the submissions received by the markets, the
cooldown table (`_last_trade_timestamps`) and the cooldown interval
(`_next_trade_delay`), and the log of `c_add_listener` calls. -/
structure StrategyState where
  markets : List ℕ
  delegateLock : Bool
  limitOrderMinExpiration : ℚ
  currentTimestamp : ℚ
  nextOrderId : ℕ
  submitted : List SubmittedOrder
  tracked : List TrackedEntry
  lastTradeTimestamps : List (MarketSymbolPair × ℚ)
  nextTradeDelay : ℚ
  listenerLog : List (ℕ × MarketEventTag)
deriving DecidableEq, Repr

/-- Python `set.add`: insert if absent (order of the model list is
irrelevant; only membership is consulted). -/
def setAdd (l : List ℕ) (m : ℕ) : List ℕ :=
  if m ∈ l then l else l ++ [m]

/-- Lookup in the cooldown table (`dict.get` semantics). -/
def tsLookup : List (MarketSymbolPair × ℚ) → MarketSymbolPair → Option ℚ
  | [], _ => none
  | (k, v) :: rest, key => if k = key then some v else tsLookup rest key

/-- Assignment `dict[key] = value` on the cooldown table. -/
def tsSet : List (MarketSymbolPair × ℚ) → MarketSymbolPair → ℚ → List (MarketSymbolPair × ℚ)
  | [], k, v => [(k, v)]
  | (k', v') :: rest, k, v =>
    if k' = k then (k, v) :: rest else (k', v') :: tsSet rest k v

/-- `MARKET_ORDER_MAX_TRACKING_TIME = 60.0 * 10` (line 492). -/
def MARKET_ORDER_MAX_TRACKING_TIME : ℚ := 60 * 10

/-- The tracker's `c_get_taker_orders()` entry for one pair: the
tracked market (taker) orders owned by that pair. -/
def takerOrders (st : StrategyState) (p : MarketSymbolPair) : List TrackedEntry :=
  st.tracked.filter (fun e => !e.isLimit && decide (e.pair = p))

/-- `expiration_ts = current_timestamp + max(_sb_limit_order_min_expiration,
expiration_seconds)`; the default `expiration_seconds` is `NaN`
(modelled `none`), and Python's `max(m, nan)` returns `m`. -/
def expirationTs (st : StrategyState) (expirationSeconds : Option ℚ) : ℚ :=
  st.currentTimestamp +
    match expirationSeconds with
    | none => st.limitOrderMinExpiration
    | some e => max st.limitOrderMinExpiration e

/-- The synchronous failures of the placement functions:
`RuntimeError` for the delegate lock, `TypeError` for non-`Decimal`
amount/price, `ValueError` for a market outside the whitelisted set. -/
inductive PlaceError where
  | delegateLocked
  | notDecimal
  | marketNotWhitelisted
deriving DecidableEq, Repr

/-- The order a placement call hands to the market's `c_buy`/`c_sell`
(line 387 / line 420). -/
def submissionFor (st : StrategyState) (pair : MarketSymbolPair) (isBuy : Bool)
    (amount : PyNum) (order_type : PyOrderType) (price : PyNum)
    (expiration_seconds : Option ℚ) : SubmittedOrder :=
  { market := pair.market, tradingPair := pair.tradingPair, isBuy := isBuy,
    amount := amount.toRat, orderType := order_type, price := price,
    expirationTs := expirationTs st expiration_seconds }

/-- The tracker entry registered after a successful placement: a limit
entry (with price) for `OrderType.LIMIT`, a taker entry for
`OrderType.MARKET` (lines 390-394 / 423-427). -/
def trackedFor (st : StrategyState) (pair : MarketSymbolPair) (isBuy : Bool)
    (amount : PyNum) (order_type : PyOrderType) (price : PyNum) : TrackedEntry :=
  match order_type with
  | .limit =>
    { pair := pair, orderId := st.nextOrderId, isBuy := isBuy, isLimit := true,
      price := some price, quantity := amount.toRat, timestamp := st.currentTimestamp }
  | .market =>
    { pair := pair, orderId := st.nextOrderId, isBuy := isBuy, isLimit := false,
      price := none, quantity := amount.toRat, timestamp := st.currentTimestamp }

/-- `c_buy_with_specific_market` (lines 365-396): guard checks in
source order (delegate lock, `isinstance(..., Decimal)` on amount and
price, market whitelisting), then submission to the market (modelled by
appending to `submitted` and drawing a fresh order id), then tracker
registration keyed on the order type. A guard failure raises before
any mutation, so the state comes back unchanged next to the error. -/
def c_buy_with_specific_market (st : StrategyState) (pair : MarketSymbolPair)
    (amount : PyNum) (order_type : PyOrderType := .market)
    (price : PyNum := decimal_nan) (expiration_seconds : Option ℚ := none) :
    StrategyState × Except PlaceError ℕ :=
  if st.delegateLock then (st, .error .delegateLocked)
  else if !(amount.isDec && price.isDec) then (st, .error .notDecimal)
  else if pair.market ∉ st.markets then (st, .error .marketNotWhitelisted)
  else
    ({ st with
        submitted := st.submitted ++
          [submissionFor st pair true amount order_type price expiration_seconds],
        tracked := st.tracked ++ [trackedFor st pair true amount order_type price],
        nextOrderId := st.nextOrderId + 1 },
      .ok st.nextOrderId)

/-- `c_sell_with_specific_market` (lines 398-429): identical to the buy
path with the sell side. -/
def c_sell_with_specific_market (st : StrategyState) (pair : MarketSymbolPair)
    (amount : PyNum) (order_type : PyOrderType := .market)
    (price : PyNum := decimal_nan) (expiration_seconds : Option ℚ := none) :
    StrategyState × Except PlaceError ℕ :=
  if st.delegateLock then (st, .error .delegateLocked)
  else if !(amount.isDec && price.isDec) then (st, .error .notDecimal)
  else if pair.market ∉ st.markets then (st, .error .marketNotWhitelisted)
  else
    ({ st with
        submitted := st.submitted ++
          [submissionFor st pair false amount order_type price expiration_seconds],
        tracked := st.tracked ++ [trackedFor st pair false amount order_type price],
        nextOrderId := st.nextOrderId + 1 },
      .ok st.nextOrderId)

/-- `c_ready_for_new_orders` (lines 662-684). For each listed leg, in
source order: if the pair owns tracked taker orders and any of them
satisfies `order.timestamp - current_timestamp <
MARKET_ORDER_MAX_TRACKING_TIME`, return `False`; otherwise if the
cooldown table holds the leg and `last_trade + next_trade_delay >
current_timestamp`, return `False`; otherwise continue with the next
leg. -/
def c_ready_for_new_orders (st : StrategyState) : List MarketSymbolPair → Bool
  | [] => true
  | p :: rest =>
    if (takerOrders st p).length > 0 &&
        (takerOrders st p).any
          (fun o => decide (o.timestamp - st.currentTimestamp < MARKET_ORDER_MAX_TRACKING_TIME)) then
      false
    else
      if (tsLookup st.lastTradeTimestamps p).isSome &&
          decide ((tsLookup st.lastTradeTimestamps p).getD 0 + st.nextTradeDelay
                    > st.currentTimestamp) then
        false
      else
        c_ready_for_new_orders st rest

/-- `c_process_market_pair_inner` (lines 706-745): quantize the best
amount on both legs (the markets' `c_quantize_order_amount` is external
and passed in as `quantizeBuy` / `quantizeSell`), take the min, and if
it is non-zero place a market buy and a market sell through the guarded
entry points and record the cooldown timestamps for both legs. A raise
from either placement propagates, keeping the mutations made so far
(second component carries the propagated exception). -/
def c_process_market_pair_inner (st : StrategyState)
    (buyPair sellPair : MarketSymbolPair)
    (quantizeBuy quantizeSell : ℚ → ℚ) (best_amount : ℚ) :
    StrategyState × Option PlaceError :=
  let quantized_buy_amount := quantizeBuy best_amount
  let quantized_sell_amount := quantizeSell best_amount
  let quantized_order_amount := min quantized_buy_amount quantized_sell_amount
  if quantized_order_amount ≠ 0 then
    match c_buy_with_specific_market st buyPair (.dec false quantized_order_amount) .market with
    | (st1, .error e) => (st1, some e)
    | (st1, .ok _) =>
      match c_sell_with_specific_market st1 sellPair (.dec false quantized_order_amount) .market with
      | (st2, .error e) => (st2, some e)
      | (st2, .ok _) =>
        ({ st2 with
            lastTradeTimestamps :=
              tsSet (tsSet st2.lastTradeTimestamps buyPair st2.currentTimestamp)
                sellPair st2.currentTimestamp }, none)
  else (st, none)

/-- `c_add_markets` (lines 260-274): for every market in the argument
list, eight `c_add_listener` calls are issued unconditionally, then the
market is added to the `_sb_markets` set. -/
def c_add_markets (st : StrategyState) (markets : List ℕ) : StrategyState :=
  markets.foldl
    (fun s m =>
      { s with
        listenerLog := s.listenerLog ++ listenerTags.map (fun t => (m, t)),
        markets := setAdd s.markets m })
    st

/-- The configuration error of `ArbitrageStrategy.__init__`
(`ValueError("market_pairs must not be empty.")`). -/
inductive ConfigError where
  | marketPairsEmpty
deriving DecidableEq, Repr

/-- The strategy state produced by `StrategyBase.__init__` together
with `ArbitrageStrategy.__init__`'s own field initialization, before
any market is registered: no active markets, delegate lock off,
`_sb_limit_order_min_expiration = 130.0`, empty tracker and cooldown
table, and the configured `next_trade_delay_interval`. -/
def freshStrategyState (next_trade_delay_interval : ℚ) : StrategyState :=
  { markets := [], delegateLock := false, limitOrderMinExpiration := 130,
    currentTimestamp := 0, nextOrderId := 0, submitted := [], tracked := [],
    lastTradeTimestamps := [], nextTradeDelay := next_trade_delay_interval,
    listenerLog := [] }

/-- `ArbitrageStrategy.__init__` (lines 501-527): the guard as written
in the source is `if len(market_pairs) < 0: raise ValueError(...)`;
otherwise the strategy state is built and every market referenced by a
configured pair is registered through `c_add_markets`. -/
def arbitrage_strategy_init (market_pairs : List (MarketSymbolPair × MarketSymbolPair))
    (next_trade_delay_interval : ℚ := 15) : Except ConfigError StrategyState :=
  if market_pairs.length < 0 then .error .marketPairsEmpty
  else
    .ok (c_add_markets (freshStrategyState next_trade_delay_interval)
      (market_pairs.foldl (fun acc mp => setAdd (setAdd acc mp.1.market) mp.2.market) []))

/-- `Except.isOk` spelled out, for stating results about constructors
and placements. -/
def isOkExcept {ε α : Type} : Except ε α → Bool
  | .ok _ => true
  | .error _ => false

/-- Outcome of one `c_tick` of `ArbitrageStrategy` (lines 578-606):
which pairs were evaluated, the exception that propagated out of the
pair loop (if any), the `_last_timestamp` written by the `finally`
clause, and the `_all_markets_ready` flag after the tick. -/
structure TickResult where
  evaluated : List (MarketSymbolPair × MarketSymbolPair)
  raised : Option ℕ
  lastTimestamp : ℚ
  allMarketsReady : Bool
deriving DecidableEq, Repr

/-- The pair loop of `c_tick` (lines 603-604): `for market_pair in
self._market_pairs: self.c_process_market_pair(market_pair)` with no
`except` clause, so an exception from one pair stops the loop and
propagates. The per-pair evaluation is the `process` parameter; it
returns `.error code` when evaluating that pair raises. The result is
the list of pairs whose evaluation was started, plus the propagated
exception. -/
def processPairs (process : MarketSymbolPair × MarketSymbolPair → Except ℕ Unit) :
    List (MarketSymbolPair × MarketSymbolPair) →
    List (MarketSymbolPair × MarketSymbolPair) × Option ℕ
  | [] => ([], none)
  | p :: ps =>
    match process p with
    | .ok _ => let r := processPairs process ps; (p :: r.1, r.2)
    | .error e => ([p], some e)

/-- `ArbitrageStrategy.c_tick` (lines 578-606): recompute global
readiness if not yet ready and skip while not ready; skip if any
market's network status is not `CONNECTED`; otherwise run the pair
loop. The `finally` clause writes `_last_timestamp = timestamp` on
every path, including when an exception propagates. -/
def c_tick_arb (allMarketsReadyFlag marketsReadyNow networkConnected : Bool)
    (process : MarketSymbolPair × MarketSymbolPair → Except ℕ Unit)
    (market_pairs : List (MarketSymbolPair × MarketSymbolPair))
    (timestamp : ℚ) : TickResult :=
  let ready := if allMarketsReadyFlag then true else marketsReadyNow
  if !ready then
    { evaluated := [], raised := none, lastTimestamp := timestamp, allMarketsReady := ready }
  else if !networkConnected then
    { evaluated := [], raised := none, lastTimestamp := timestamp, allMarketsReady := ready }
  else
    let r := processPairs process market_pairs
    { evaluated := r.1, raised := r.2, lastTimestamp := timestamp, allMarketsReady := ready }

/-- One price level of an order book, as yielded by `bid_entries()` /
`ask_entries()`. -/
structure BookLevel where
  price : ℚ
  amount : ℚ
deriving DecidableEq, Repr

/-- One element of the list returned by
`c_find_profitable_arbitrage_orders`: `(bid_price_adjusted,
ask_price_adjusted, bid_price, ask_price, step_amount)`. -/
structure OrderRow where
  bidPriceAdjusted : ℚ
  askPriceAdjusted : ℚ
  bidPrice : ℚ
  askPrice : ℚ
  amount : ℚ
deriving DecidableEq, Repr

/-- Result of the matching loop: the emitted rows together with a flag
recording whether the defensive `else: break` branch (line 955-957,
"something went wrong if leftover amount is negative") was taken. -/
structure ArbResult where
  steps : List OrderRow
  hitDefensiveBreak : Bool
deriving DecidableEq, Repr

/-- The body of the `while True` loop of
`c_find_profitable_arbitrage_orders` (lines 934-979), entered just
after the advance phase with the current bid level `cb` (leftover
`bl`), the current ask level `ca` (leftover `al`), and the remaining
level streams `bids` / `asks`. `nb` / `na` model
`ExchangeRateConversion.adjust_token_rate` for the sell-market and
buy-market quote assets (external collaborators). The price checks and
the step emission come first; the next iteration's advance phase
follows, with `StopIteration` from an exhausted stream returning the
rows accumulated so far. -/
def arbLoop (nb na : ℚ → ℚ) (min_profitability : ℚ) :
    BookLevel → BookLevel → ℚ → ℚ → List BookLevel → List BookLevel → ArbResult
  | cb, ca, bl, al, bids, asks =>
    if nb cb.price < na ca.price then ⟨[], false⟩
    else if min_profitability < 0 ∧
        nb cb.price / na ca.price < 1 + min_profitability then ⟨[], false⟩
    else
      if bl - min bl al = 0 ∧ al - min bl al = 0 then
        match bids, asks with
        | b :: bs, a :: as_ =>
          let r := arbLoop nb na min_profitability b a b.amount a.amount bs as_
          ⟨⟨nb cb.price, na ca.price, cb.price, ca.price, min bl al⟩ :: r.steps,
            r.hitDefensiveBreak⟩
        | _, _ => ⟨[⟨nb cb.price, na ca.price, cb.price, ca.price, min bl al⟩], false⟩
      else if 0 < bl - min bl al ∧ al - min bl al = 0 then
        match asks with
        | a :: as_ =>
          let r := arbLoop nb na min_profitability cb a (bl - min bl al) a.amount bids as_
          ⟨⟨nb cb.price, na ca.price, cb.price, ca.price, min bl al⟩ :: r.steps,
            r.hitDefensiveBreak⟩
        | [] => ⟨[⟨nb cb.price, na ca.price, cb.price, ca.price, min bl al⟩], false⟩
      else if 0 < al - min bl al ∧ bl - min bl al = 0 then
        match bids with
        | b :: bs =>
          let r := arbLoop nb na min_profitability b ca b.amount (al - min bl al) bs asks
          ⟨⟨nb cb.price, na ca.price, cb.price, ca.price, min bl al⟩ :: r.steps,
            r.hitDefensiveBreak⟩
        | [] => ⟨[⟨nb cb.price, na ca.price, cb.price, ca.price, min bl al⟩], false⟩
      else if h : 0 < bl - min bl al ∧ 0 < al - min bl al then
        arbLoop nb na min_profitability cb ca (bl - min bl al) (al - min bl al) bids asks
      else ⟨[⟨nb cb.price, na ca.price, cb.price, ca.price, min bl al⟩], true⟩
termination_by _ _ _ _ bids asks => bids.length + asks.length
decreasing_by
  all_goals simp_wf
  all_goals try omega
  rcases min_cases bl al with ⟨hm, h2⟩ | ⟨hm, h2⟩ <;> rw [hm] at h <;>
    simp only [sub_self, lt_self_iff_false, false_and, and_false] at h

/-- `c_find_profitable_arbitrage_orders` (lines 906-984): the initial
state has both leftovers zero and no current levels, so the first loop
iteration pops the first level of each stream; if either book is empty
the resulting `StopIteration` returns the empty list. -/
def c_find_profitable_arbitrage_orders (nb na : ℚ → ℚ) (min_profitability : ℚ)
    (bids asks : List BookLevel) : ArbResult :=
  match bids, asks with
  | b :: bs, a :: as_ => arbLoop nb na min_profitability b a b.amount a.amount bs as_
  | _, _ => ⟨[], false⟩

/-- Total matched size of a step sequence. -/
def rowsAmount (rows : List OrderRow) : ℚ :=
  (rows.map OrderRow.amount).sum

/-- Total depth (sum of level sizes) of a list of book levels. -/
def depth (levels : List BookLevel) : ℚ :=
  (levels.map BookLevel.amount).sum

/-! ## Helper lemmas -/

theorem tsLookup_tsSet_self (l : List (MarketSymbolPair × ℚ)) (k : MarketSymbolPair) (v : ℚ) :
    tsLookup (tsSet l k v) k = some v := by
  induction l with
  | nil => simp [tsSet, tsLookup]
  | cons hd tl ih =>
    obtain ⟨k', v'⟩ := hd
    by_cases hk : k' = k
    · simp [tsSet, tsLookup, hk]
    · simp [tsSet, tsLookup, hk, ih]

theorem tsLookup_tsSet_ne (l : List (MarketSymbolPair × ℚ)) (k k' : MarketSymbolPair)
    (v : ℚ) (h : k' ≠ k) : tsLookup (tsSet l k v) k' = tsLookup l k' := by
  induction l with
  | nil =>
    simp only [tsSet, tsLookup]
    rw [if_neg (Ne.symm h)]
  | cons hd tl ih =>
    obtain ⟨k0, v0⟩ := hd
    by_cases hk : k0 = k
    · simp only [tsSet, if_pos hk, tsLookup, hk]
      rw [if_neg (Ne.symm h), if_neg (Ne.symm h)]
    · simp only [tsSet, if_neg hk, tsLookup]
      by_cases hk' : k0 = k'
      · simp [hk']
      · simp [hk', ih]

theorem tsLookup_double_set (l : List (MarketSymbolPair × ℚ)) (k1 k2 x : MarketSymbolPair)
    (v : ℚ) (h : x = k1 ∨ x = k2) :
    tsLookup (tsSet (tsSet l k1 v) k2 v) x = some v := by
  rcases h with h | h
  · subst h
    by_cases hk : x = k2
    · rw [hk, tsLookup_tsSet_self]
    · rw [tsLookup_tsSet_ne _ _ _ _ hk, tsLookup_tsSet_self]
  · rw [h, tsLookup_tsSet_self]

theorem c_buy_preserves (st : StrategyState) (pair : MarketSymbolPair) (amount : PyNum)
    (ot : PyOrderType) (price : PyNum) (es : Option ℚ) :
    (c_buy_with_specific_market st pair amount ot price es).1.currentTimestamp
        = st.currentTimestamp ∧
    (c_buy_with_specific_market st pair amount ot price es).1.nextTradeDelay
        = st.nextTradeDelay ∧
    (c_buy_with_specific_market st pair amount ot price es).1.lastTradeTimestamps
        = st.lastTradeTimestamps ∧
    (c_buy_with_specific_market st pair amount ot price es).1.delegateLock
        = st.delegateLock ∧
    (c_buy_with_specific_market st pair amount ot price es).1.markets = st.markets := by
  unfold c_buy_with_specific_market
  split_ifs <;> simp

theorem c_sell_preserves (st : StrategyState) (pair : MarketSymbolPair) (amount : PyNum)
    (ot : PyOrderType) (price : PyNum) (es : Option ℚ) :
    (c_sell_with_specific_market st pair amount ot price es).1.currentTimestamp
        = st.currentTimestamp ∧
    (c_sell_with_specific_market st pair amount ot price es).1.nextTradeDelay
        = st.nextTradeDelay ∧
    (c_sell_with_specific_market st pair amount ot price es).1.lastTradeTimestamps
        = st.lastTradeTimestamps ∧
    (c_sell_with_specific_market st pair amount ot price es).1.delegateLock
        = st.delegateLock ∧
    (c_sell_with_specific_market st pair amount ot price es).1.markets = st.markets := by
  unfold c_sell_with_specific_market
  split_ifs <;> simp

theorem c_buy_isOk_iff (st : StrategyState) (pair : MarketSymbolPair) (amount : PyNum)
    (ot : PyOrderType) (price : PyNum) (es : Option ℚ) :
    isOkExcept (c_buy_with_specific_market st pair amount ot price es).2 = true ↔
      (st.delegateLock = false ∧ amount.isDec = true ∧ price.isDec = true ∧
        pair.market ∈ st.markets) := by
  cases amount <;> cases price <;> unfold c_buy_with_specific_market <;>
    split_ifs <;> simp_all [isOkExcept, PyNum.isDec]

theorem c_sell_isOk_iff (st : StrategyState) (pair : MarketSymbolPair) (amount : PyNum)
    (ot : PyOrderType) (price : PyNum) (es : Option ℚ) :
    isOkExcept (c_sell_with_specific_market st pair amount ot price es).2 = true ↔
      (st.delegateLock = false ∧ amount.isDec = true ∧ price.isDec = true ∧
        pair.market ∈ st.markets) := by
  cases amount <;> cases price <;> unfold c_sell_with_specific_market <;>
    split_ifs <;> simp_all [isOkExcept, PyNum.isDec]

theorem c_buy_fail_state (st : StrategyState) (pair : MarketSymbolPair) (amount : PyNum)
    (ot : PyOrderType) (price : PyNum) (es : Option ℚ)
    (h : isOkExcept (c_buy_with_specific_market st pair amount ot price es).2 = false) :
    (c_buy_with_specific_market st pair amount ot price es).1 = st := by
  unfold c_buy_with_specific_market at *
  split_ifs at * <;> simp_all [isOkExcept]

theorem c_sell_fail_state (st : StrategyState) (pair : MarketSymbolPair) (amount : PyNum)
    (ot : PyOrderType) (price : PyNum) (es : Option ℚ)
    (h : isOkExcept (c_sell_with_specific_market st pair amount ot price es).2 = false) :
    (c_sell_with_specific_market st pair amount ot price es).1 = st := by
  unfold c_sell_with_specific_market at *
  split_ifs at * <;> simp_all [isOkExcept]

theorem c_buy_ok_state (st : StrategyState) (pair : MarketSymbolPair) (amount : PyNum)
    (ot : PyOrderType) (price : PyNum) (es : Option ℚ)
    (hlock : st.delegateLock = false) (hda : amount.isDec = true)
    (hdp : price.isDec = true) (hm : pair.market ∈ st.markets) :
    c_buy_with_specific_market st pair amount ot price es =
      ({ st with
          submitted := st.submitted ++ [submissionFor st pair true amount ot price es],
          tracked := st.tracked ++ [trackedFor st pair true amount ot price],
          nextOrderId := st.nextOrderId + 1 }, .ok st.nextOrderId) := by
  unfold c_buy_with_specific_market
  simp [hlock, hda, hdp, hm]

theorem c_sell_ok_state (st : StrategyState) (pair : MarketSymbolPair) (amount : PyNum)
    (ot : PyOrderType) (price : PyNum) (es : Option ℚ)
    (hlock : st.delegateLock = false) (hda : amount.isDec = true)
    (hdp : price.isDec = true) (hm : pair.market ∈ st.markets) :
    c_sell_with_specific_market st pair amount ot price es =
      ({ st with
          submitted := st.submitted ++ [submissionFor st pair false amount ot price es],
          tracked := st.tracked ++ [trackedFor st pair false amount ot price],
          nextOrderId := st.nextOrderId + 1 }, .ok st.nextOrderId) := by
  unfold c_sell_with_specific_market
  simp [hlock, hda, hdp, hm]

theorem processPairs_prefix_error
    (process : MarketSymbolPair × MarketSymbolPair → Except ℕ Unit)
    (ps rest : List (MarketSymbolPair × MarketSymbolPair))
    (p : MarketSymbolPair × MarketSymbolPair) (e : ℕ)
    (h1 : ∀ q ∈ ps, process q = .ok ()) (h2 : process p = .error e) :
    processPairs process (ps ++ p :: rest) = (ps ++ [p], some e) := by
  induction ps with
  | nil => simp [processPairs, h2]
  | cons q ps' ih =>
    have hq : process q = .ok () := h1 q (by simp)
    have ih' := ih (fun x hx => h1 x (by simp [hx]))
    simp [processPairs, hq, ih']

/-! ## Claim theorems -/

/-- C8 (status: code_bug). The constructor guard is
`if len(market_pairs) < 0`, which no list satisfies, so constructing
the arbitrage strategy with an empty market-pair list succeeds instead
of raising the configuration error whose message
("market_pairs must not be empty.") documents the intent. -/
theorem arbitrage_strategy_init_accepts_empty :
    isOkExcept (arbitrage_strategy_init [] 15) = true ∧
    ¬ ([] : List (MarketSymbolPair × MarketSymbolPair)).length < 0 := by
  constructor
  · rfl
  · decide

/-- C7 counterexample: adding an already-registered market a second
time is not a no-op — `c_add_markets` has no membership guard (unlike
`c_remove_markets`), so the duplicate add issues the eight
`c_add_listener` subscriptions again; only the set insertion is
idempotent. -/
theorem c_add_markets_duplicate_not_noop :
    (c_add_markets (c_add_markets (freshStrategyState 15) [5]) [5]).listenerLog.length = 16 ∧
    c_add_markets (c_add_markets (freshStrategyState 15) [5]) [5] ≠
      c_add_markets (freshStrategyState 15) [5] ∧
    (c_add_markets (c_add_markets (freshStrategyState 15) [5]) [5]).markets = [5] := by
  refine ⟨by decide, by decide, by decide⟩

/-- C7 (status: corrected). Amended claim: `c_add_markets` is
idempotent only on the active-market set (a true set); the eight
event-listener subscriptions are issued unconditionally for every
market in the argument list on every call, including markets already
registered. -/
theorem c_add_markets_set_idempotent_but_resubscribes
    (st : StrategyState) (m : ℕ) (h : m ∈ st.markets) :
    (c_add_markets st [m]).markets = st.markets ∧
    (c_add_markets st [m]).listenerLog =
      st.listenerLog ++ listenerTags.map (fun t => (m, t)) := by
  simp [c_add_markets, setAdd, h]

/-- C7 witness: the amended claim evaluated on a concrete
already-registered market. -/
theorem c_add_markets_set_idempotent_but_resubscribes_witness :
    (c_add_markets (c_add_markets (freshStrategyState 15) [5]) [5]).markets =
      (c_add_markets (freshStrategyState 15) [5]).markets ∧
    (c_add_markets (c_add_markets (freshStrategyState 15) [5]) [5]).listenerLog =
      (c_add_markets (freshStrategyState 15) [5]).listenerLog ++
        listenerTags.map (fun t => (5, t)) :=
  c_add_markets_set_idempotent_but_resubscribes
    (c_add_markets (freshStrategyState 15) [5]) 5 (by decide)

/-- C1 (status: code_bug). The readiness gate compares
`order.timestamp - current_timestamp < MARKET_ORDER_MAX_TRACKING_TIME`
(line 671) instead of `current_timestamp - order.timestamp`, so a
tracked market order that is 1000 seconds old — far beyond the
600-second horizon, hence "completed" per the source's own comment —
still makes `c_ready_for_new_orders` return `False` even with no
cooldown entry present. -/
theorem ready_for_new_orders_blocks_on_stale_market_order :
    c_ready_for_new_orders
      { freshStrategyState 15 with
          currentTimestamp := 1000,
          tracked := [{ pair := ⟨1, 10, 20, 30⟩, orderId := 0, isBuy := true,
                        isLimit := false, price := none, quantity := 1,
                        timestamp := 0 }] }
      [⟨1, 10, 20, 30⟩] = false ∧
    MARKET_ORDER_MAX_TRACKING_TIME ≤ (1000 : ℚ) - 0 ∧
    tsLookup (freshStrategyState 15).lastTradeTimestamps ⟨1, 10, 20, 30⟩ = none := by
  refine ⟨?_, ?_, ?_⟩
  · simp only [c_ready_for_new_orders, takerOrders, freshStrategyState,
      MARKET_ORDER_MAX_TRACKING_TIME, tsLookup]
    norm_num
  · norm_num [MARKET_ORDER_MAX_TRACKING_TIME]
  · simp [freshStrategyState, tsLookup]

/-- C4 counterexample: the pair loop in `c_tick` sits inside
`try/finally` with no `except` clause, so an error raised while
evaluating the first pair propagates and the second listed pair is not
evaluated in that tick — contradicting the claim that such an error is
caught and subsequent pairs still run. -/
theorem c_tick_error_aborts_later_pairs :
    (c_tick_arb true true true
        (fun p => if p = (⟨1, 0, 0, 0⟩, ⟨2, 0, 0, 0⟩) then .error 7 else .ok ())
        [(⟨1, 0, 0, 0⟩, ⟨2, 0, 0, 0⟩), (⟨3, 0, 0, 0⟩, ⟨4, 0, 0, 0⟩)] 42).evaluated =
      [(⟨1, 0, 0, 0⟩, ⟨2, 0, 0, 0⟩)] ∧
    (c_tick_arb true true true
        (fun p => if p = (⟨1, 0, 0, 0⟩, ⟨2, 0, 0, 0⟩) then .error 7 else .ok ())
        [(⟨1, 0, 0, 0⟩, ⟨2, 0, 0, 0⟩), (⟨3, 0, 0, 0⟩, ⟨4, 0, 0, 0⟩)] 42).raised = some 7 := by
  refine ⟨by decide, by decide⟩

/-- C4 (status: corrected). Amended claim: an error raised while
evaluating one pair is not caught by `c_tick`: the pairs listed before
it are evaluated, the failing pair's evaluation is started, every pair
listed after it is skipped for that tick, and the error propagates to
the caller — while the `finally` clause still records the tick's
timestamp. Moreover an evaluation of a single pair that raises from
inside the dispatch step never writes a cooldown entry (the cooldown
table is updated only after both placements succeed). -/
theorem c_tick_error_propagation_spec :
    (∀ (process : MarketSymbolPair × MarketSymbolPair → Except ℕ Unit)
        (ps rest : List (MarketSymbolPair × MarketSymbolPair))
        (p : MarketSymbolPair × MarketSymbolPair) (e : ℕ) (ts : ℚ),
      (∀ q ∈ ps, process q = .ok ()) → process p = .error e →
        c_tick_arb true true true process (ps ++ p :: rest) ts =
          { evaluated := ps ++ [p], raised := some e, lastTimestamp := ts,
            allMarketsReady := true }) ∧
    (∀ (st : StrategyState) (bp sp : MarketSymbolPair) (qb qs : ℚ → ℚ) (amt : ℚ)
        (er : PlaceError),
      (c_process_market_pair_inner st bp sp qb qs amt).2 = some er →
        (c_process_market_pair_inner st bp sp qb qs amt).1.lastTradeTimestamps =
          st.lastTradeTimestamps) := by
  constructor
  · intro process ps rest p e ts h1 h2
    rw [c_tick_arb]
    simp only [Bool.not_true, if_true]
    rw [processPairs_prefix_error process ps rest p e h1 h2]
    simp
  · intro st bp sp qb qs amt er h
    rw [c_process_market_pair_inner] at *
    by_cases hq : min (qb amt) (qs amt) ≠ 0
    · simp only [if_pos hq] at h ⊢
      rcases hbuy : c_buy_with_specific_market st bp
          (.dec false (min (qb amt) (qs amt))) .market with ⟨st1, r1⟩
      rcases r1 with e1 | oid1
      · simp only [hbuy] at h ⊢
        have hb := c_buy_preserves st bp (.dec false (min (qb amt) (qs amt)))
          .market decimal_nan none
        rw [hbuy] at hb
        exact hb.2.2.1
      · simp only [hbuy] at h ⊢
        rcases hsell : c_sell_with_specific_market st1 sp
            (.dec false (min (qb amt) (qs amt))) .market with ⟨st2, r2⟩
        rcases r2 with e2 | oid2
        · simp only [hsell] at h ⊢
          have hb := c_buy_preserves st bp (.dec false (min (qb amt) (qs amt)))
            .market decimal_nan none
          rw [hbuy] at hb
          have hs := c_sell_preserves st1 sp (.dec false (min (qb amt) (qs amt)))
            .market decimal_nan none
          rw [hsell] at hs
          rw [hs.2.2.1, hb.2.2.1]
        · simp only [hsell] at h
          exact Option.noConfusion h
    · simp only [if_neg hq] at h
      exact Option.noConfusion h

/-- C4 witness: the amended claim applied to the concrete two-pair
tick of the counterexample scenario. -/
theorem c_tick_error_propagation_spec_witness :
    c_tick_arb true true true
        (fun p => if p = (⟨1, 0, 0, 0⟩, ⟨2, 0, 0, 0⟩) then .error 7 else .ok ())
        [(⟨1, 0, 0, 0⟩, ⟨2, 0, 0, 0⟩), (⟨3, 0, 0, 0⟩, ⟨4, 0, 0, 0⟩)] 42 =
      { evaluated := [(⟨1, 0, 0, 0⟩, ⟨2, 0, 0, 0⟩)], raised := some 7,
        lastTimestamp := 42, allMarketsReady := true } :=
  c_tick_error_propagation_spec.1
    (fun p => if p = (⟨1, 0, 0, 0⟩, ⟨2, 0, 0, 0⟩) then .error 7 else .ok ())
    [] [(⟨3, 0, 0, 0⟩, ⟨4, 0, 0, 0⟩)] (⟨1, 0, 0, 0⟩, ⟨2, 0, 0, 0⟩) 7 42
    (by intro q hq; cases hq) (by rfl)

/-- C5 (status: confirmed). `c_buy_with_specific_market` and
`c_sell_with_specific_market` fail exactly when the delegate lock is
set, or the amount or the price is not a `Decimal` object, or the
pair's market is not in the whitelisted market set; a failing call
leaves the state untouched (no submission, no tracker entry), and a
succeeding call appends exactly one submission to the market and one
tracker entry of the matching kind before returning the order id. -/
theorem placement_guard_and_atomicity_spec (st : StrategyState)
    (pair : MarketSymbolPair) (amount : PyNum) (ot : PyOrderType)
    (price : PyNum) (es : Option ℚ) :
    (isOkExcept (c_buy_with_specific_market st pair amount ot price es).2 = false ↔
      (st.delegateLock = true ∨ amount.isDec = false ∨ price.isDec = false ∨
        pair.market ∉ st.markets)) ∧
    (isOkExcept (c_sell_with_specific_market st pair amount ot price es).2 = false ↔
      (st.delegateLock = true ∨ amount.isDec = false ∨ price.isDec = false ∨
        pair.market ∉ st.markets)) ∧
    (isOkExcept (c_buy_with_specific_market st pair amount ot price es).2 = false →
      (c_buy_with_specific_market st pair amount ot price es).1 = st) ∧
    (isOkExcept (c_sell_with_specific_market st pair amount ot price es).2 = false →
      (c_sell_with_specific_market st pair amount ot price es).1 = st) ∧
    (isOkExcept (c_buy_with_specific_market st pair amount ot price es).2 = true →
      c_buy_with_specific_market st pair amount ot price es =
        ({ st with
            submitted := st.submitted ++
              [submissionFor st pair true amount ot price es],
            tracked := st.tracked ++ [trackedFor st pair true amount ot price],
            nextOrderId := st.nextOrderId + 1 }, .ok st.nextOrderId)) ∧
    (isOkExcept (c_sell_with_specific_market st pair amount ot price es).2 = true →
      c_sell_with_specific_market st pair amount ot price es =
        ({ st with
            submitted := st.submitted ++
              [submissionFor st pair false amount ot price es],
            tracked := st.tracked ++ [trackedFor st pair false amount ot price],
            nextOrderId := st.nextOrderId + 1 }, .ok st.nextOrderId)) := by
  have hbi := c_buy_isOk_iff st pair amount ot price es
  have hsi := c_sell_isOk_iff st pair amount ot price es
  refine ⟨?_, ?_, fun h => c_buy_fail_state _ _ _ _ _ _ h,
    fun h => c_sell_fail_state _ _ _ _ _ _ h, ?_, ?_⟩
  · rw [Bool.eq_false_iff, Ne, hbi]
    simp only [Bool.eq_false_iff, Ne]
    tauto
  · rw [Bool.eq_false_iff, Ne, hsi]
    simp only [Bool.eq_false_iff, Ne]
    tauto
  · intro h
    obtain ⟨h1, h2, h3, h4⟩ := hbi.mp h
    exact c_buy_ok_state st pair amount ot price es h1 h2 h3 h4
  · intro h
    obtain ⟨h1, h2, h3, h4⟩ := hsi.mp h
    exact c_sell_ok_state st pair amount ot price es h1 h2 h3 h4

/-- C5 witness: a float amount is rejected on a fresh state (buy
side), evaluated concretely through the theorem. -/
theorem placement_guard_and_atomicity_spec_witness :
    isOkExcept (c_buy_with_specific_market (freshStrategyState 15) ⟨1, 10, 20, 30⟩
        (.flt 2) .market decimal_nan none).2 = false :=
  (placement_guard_and_atomicity_spec (freshStrategyState 15) ⟨1, 10, 20, 30⟩
      (.flt 2) .market decimal_nan none).1.mpr (Or.inr (Or.inl rfl))

/-- C10 (status: confirmed). With the default price argument
`decimal_nan = Decimal("NaN")`, a market-type placement never fails
the decimal validation: the default price is itself a `Decimal`, so
for market orders only the amount must be a `Decimal`, and omitting
the price never causes the `TypeError` rejection; when the delegate
lock is off and the market is whitelisted, a `Decimal` amount makes
the call succeed outright. -/
theorem market_order_default_price_passes_validation (st : StrategyState)
    (pair : MarketSymbolPair) (amount : PyNum) (es : Option ℚ)
    (ha : amount.isDec = true) :
    ((c_buy_with_specific_market st pair amount .market decimal_nan es).2 ≠
        .error .notDecimal ∧
      (c_sell_with_specific_market st pair amount .market decimal_nan es).2 ≠
        .error .notDecimal) ∧
    (st.delegateLock = false → pair.market ∈ st.markets →
      isOkExcept (c_buy_with_specific_market st pair amount .market decimal_nan es).2
          = true ∧
      isOkExcept (c_sell_with_specific_market st pair amount .market decimal_nan es).2
          = true) := by
  constructor
  · constructor
    · unfold c_buy_with_specific_market
      split_ifs <;> simp_all [decimal_nan, PyNum.isDec]
    · unfold c_sell_with_specific_market
      split_ifs <;> simp_all [decimal_nan, PyNum.isDec]
  · intro hl hm
    exact ⟨(c_buy_isOk_iff st pair amount .market decimal_nan es).mpr
        ⟨hl, ha, rfl, hm⟩,
      (c_sell_isOk_iff st pair amount .market decimal_nan es).mpr
        ⟨hl, ha, rfl, hm⟩⟩

/-- C10 witness: a concrete market buy and sell with the default
price and a `Decimal` amount succeed on a state whose market set holds
the pair's market. -/
theorem market_order_default_price_passes_validation_witness :
    isOkExcept (c_buy_with_specific_market
        (c_add_markets (freshStrategyState 15) [1]) ⟨1, 10, 20, 30⟩
        (.dec false 2) .market decimal_nan none).2 = true ∧
    isOkExcept (c_sell_with_specific_market
        (c_add_markets (freshStrategyState 15) [1]) ⟨1, 10, 20, 30⟩
        (.dec false 2) .market decimal_nan none).2 = true :=
  (market_order_default_price_passes_validation
      (c_add_markets (freshStrategyState 15) [1]) ⟨1, 10, 20, 30⟩
      (.dec false 2) none rfl).2 (by decide) (by decide)

/-- C3 (status: confirmed). In `c_process_market_pair_inner` the
dispatched amount is `min(quantize(buy leg, raw), quantize(sell leg,
raw))`; when it is non-zero exactly one market-type buy on the buy leg
and one market-type sell on the sell leg are submitted and tracked and
the current tick time becomes both legs' cooldown timestamp; when it
is zero — in particular whenever the raw amount is zero, given that
each market's quantization maps zero to zero — nothing is submitted
and no cooldown entry is written. -/
theorem dispatch_quantized_min_spec (st : StrategyState)
    (buyPair sellPair : MarketSymbolPair) (quantizeBuy quantizeSell : ℚ → ℚ)
    (amt : ℚ) (hlock : st.delegateLock = false)
    (hbm : buyPair.market ∈ st.markets) (hsm : sellPair.market ∈ st.markets)
    (hq0b : quantizeBuy 0 = 0) (hq0s : quantizeSell 0 = 0) :
    (min (quantizeBuy amt) (quantizeSell amt) ≠ 0 →
      c_process_market_pair_inner st buyPair sellPair quantizeBuy quantizeSell amt =
        ({ st with
            submitted := st.submitted ++
              [{ market := buyPair.market, tradingPair := buyPair.tradingPair,
                 isBuy := true, amount := min (quantizeBuy amt) (quantizeSell amt),
                 orderType := .market, price := decimal_nan,
                 expirationTs := st.currentTimestamp + st.limitOrderMinExpiration },
               { market := sellPair.market, tradingPair := sellPair.tradingPair,
                 isBuy := false, amount := min (quantizeBuy amt) (quantizeSell amt),
                 orderType := .market, price := decimal_nan,
                 expirationTs := st.currentTimestamp + st.limitOrderMinExpiration }],
            tracked := st.tracked ++
              [{ pair := buyPair, orderId := st.nextOrderId, isBuy := true,
                 isLimit := false, price := none,
                 quantity := min (quantizeBuy amt) (quantizeSell amt),
                 timestamp := st.currentTimestamp },
               { pair := sellPair, orderId := st.nextOrderId + 1, isBuy := false,
                 isLimit := false, price := none,
                 quantity := min (quantizeBuy amt) (quantizeSell amt),
                 timestamp := st.currentTimestamp }],
            nextOrderId := st.nextOrderId + 2,
            lastTradeTimestamps :=
              tsSet (tsSet st.lastTradeTimestamps buyPair st.currentTimestamp)
                sellPair st.currentTimestamp }, none)) ∧
    (min (quantizeBuy amt) (quantizeSell amt) = 0 →
      c_process_market_pair_inner st buyPair sellPair quantizeBuy quantizeSell amt =
        (st, none)) ∧
    (amt = 0 →
      c_process_market_pair_inner st buyPair sellPair quantizeBuy quantizeSell amt =
        (st, none)) := by
  have hzero : min (quantizeBuy amt) (quantizeSell amt) = 0 →
      c_process_market_pair_inner st buyPair sellPair quantizeBuy quantizeSell amt =
        (st, none) := by
    intro hq
    rw [c_process_market_pair_inner, if_neg (by simpa using hq)]
  refine ⟨?_, hzero, ?_⟩
  · intro hq
    have hbuy := c_buy_ok_state st buyPair
      (.dec false (min (quantizeBuy amt) (quantizeSell amt)))
      .market decimal_nan none hlock rfl rfl hbm
    have hsell := c_sell_ok_state
      { st with
          submitted := st.submitted ++
            [submissionFor st buyPair true
              (.dec false (min (quantizeBuy amt) (quantizeSell amt)))
              .market decimal_nan none],
          tracked := st.tracked ++
            [trackedFor st buyPair true
              (.dec false (min (quantizeBuy amt) (quantizeSell amt)))
              .market decimal_nan],
          nextOrderId := st.nextOrderId + 1 }
      sellPair (.dec false (min (quantizeBuy amt) (quantizeSell amt)))
      .market decimal_nan none hlock rfl rfl hsm
    rw [c_process_market_pair_inner, if_pos hq, hbuy]
    simp only [hsell]
    simp [submissionFor, trackedFor, expirationTs, PyNum.toRat]
  · intro hamt
    subst hamt
    exact hzero (by rw [hq0b, hq0s]; simp)

/-- C3 witness: a concrete dispatch with identity quantization —
non-zero raw amount places the matched pair of market orders and a
zero raw amount leaves the state untouched. -/
theorem dispatch_quantized_min_spec_witness :
    (c_process_market_pair_inner
        { c_add_markets (freshStrategyState 15) [1, 2] with currentTimestamp := 100 }
        ⟨1, 10, 20, 30⟩ ⟨2, 10, 20, 30⟩ id id 3).2 = none ∧
    (c_process_market_pair_inner
        { c_add_markets (freshStrategyState 15) [1, 2] with currentTimestamp := 100 }
        ⟨1, 10, 20, 30⟩ ⟨2, 10, 20, 30⟩ id id 3).1.submitted.length = 2 ∧
    c_process_market_pair_inner
        { c_add_markets (freshStrategyState 15) [1, 2] with currentTimestamp := 100 }
        ⟨1, 10, 20, 30⟩ ⟨2, 10, 20, 30⟩ id id 0 =
      ({ c_add_markets (freshStrategyState 15) [1, 2] with currentTimestamp := 100 },
        none) := by
  have h := dispatch_quantized_min_spec
    { c_add_markets (freshStrategyState 15) [1, 2] with currentTimestamp := 100 }
    ⟨1, 10, 20, 30⟩ ⟨2, 10, 20, 30⟩ id id 3 (by decide) (by decide) (by decide)
    rfl rfl
  have h1 := h.1 (by norm_num)
  refine ⟨by rw [h1], by rw [h1]; rfl, ?_⟩
  have h0 := dispatch_quantized_min_spec
    { c_add_markets (freshStrategyState 15) [1, 2] with currentTimestamp := 100 }
    ⟨1, 10, 20, 30⟩ ⟨2, 10, 20, 30⟩ id id 0 (by decide) (by decide) (by decide)
    rfl rfl
  exact h0.2.2 rfl

theorem ready_false_of_cooldown (st : StrategyState) (p : MarketSymbolPair)
    (rest : List MarketSymbolPair) (t : ℚ)
    (hl : tsLookup st.lastTradeTimestamps p = some t)
    (ht : st.currentTimestamp < t + st.nextTradeDelay) :
    c_ready_for_new_orders st (p :: rest) = false := by
  rw [c_ready_for_new_orders]
  split_ifs with h1 h2
  · rfl
  · rfl
  · exfalso
    apply h2
    simp [hl, decide_eq_true_eq]
    exact ht

/-- C6 (status: confirmed). After a dispatch that placed orders (the
quantized amount was non-zero and `c_process_market_pair_inner`
returned without raising), both legs' cooldown timestamps equal the
dispatch tick time, and at every later time strictly before
`dispatch time + next_trade_delay` the pair is not ready — whichever
leg is listed first, its unexpired cooldown already forces
`c_ready_for_new_orders` to return `False`. -/
theorem cooldown_blocks_until_delay_elapsed (st : StrategyState)
    (buyPair sellPair : MarketSymbolPair) (qb qs : ℚ → ℚ) (amt : ℚ)
    (st' : StrategyState) (now' : ℚ)
    (h : c_process_market_pair_inner st buyPair sellPair qb qs amt = (st', none))
    (hq : min (qb amt) (qs amt) ≠ 0)
    (hnow : now' < st.currentTimestamp + st.nextTradeDelay) :
    c_ready_for_new_orders { st' with currentTimestamp := now' }
      [buyPair, sellPair] = false ∧
    c_ready_for_new_orders { st' with currentTimestamp := now' }
      [sellPair, buyPair] = false := by
  rw [c_process_market_pair_inner, if_pos hq] at h
  rcases hbuy : c_buy_with_specific_market st buyPair
      (.dec false (min (qb amt) (qs amt))) .market with ⟨st1, r1⟩
  rcases r1 with e1 | oid1
  · simp only [hbuy] at h
    exact Option.noConfusion (congrArg Prod.snd h)
  · simp only [hbuy] at h
    rcases hsell : c_sell_with_specific_market st1 sellPair
        (.dec false (min (qb amt) (qs amt))) .market with ⟨st2, r2⟩
    rcases r2 with e2 | oid2
    · simp only [hsell] at h
      exact Option.noConfusion (congrArg Prod.snd h)
    · simp only [hsell] at h
      simp only [Prod.mk.injEq] at h
      obtain ⟨hst, -⟩ := h
      have hb := c_buy_preserves st buyPair (.dec false (min (qb amt) (qs amt)))
        .market decimal_nan none
      rw [hbuy] at hb
      have hs := c_sell_preserves st1 sellPair (.dec false (min (qb amt) (qs amt)))
        .market decimal_nan none
      rw [hsell] at hs
      dsimp only at hb hs
      have hts : st'.lastTradeTimestamps =
          tsSet (tsSet st.lastTradeTimestamps buyPair st.currentTimestamp)
            sellPair st.currentTimestamp := by
        rw [← hst]
        simp [hs.2.2.1, hb.2.2.1, hs.1, hb.1]
      have hdelay : st'.nextTradeDelay = st.nextTradeDelay := by
        rw [← hst]
        simp [hs.2.1, hb.2.1]
      constructor
      · apply ready_false_of_cooldown _ _ _ st.currentTimestamp
        · show tsLookup st'.lastTradeTimestamps buyPair = some st.currentTimestamp
          rw [hts]
          exact tsLookup_double_set _ _ _ _ _ (Or.inl rfl)
        · show now' < st.currentTimestamp +
            ({ st' with currentTimestamp := now' }).nextTradeDelay
          simpa [hdelay] using hnow
      · apply ready_false_of_cooldown _ _ _ st.currentTimestamp
        · show tsLookup st'.lastTradeTimestamps sellPair = some st.currentTimestamp
          rw [hts]
          exact tsLookup_double_set _ _ _ _ _ (Or.inr rfl)
        · show now' < st.currentTimestamp +
            ({ st' with currentTimestamp := now' }).nextTradeDelay
          simpa [hdelay] using hnow

/-- C6 witness: a concrete dispatch at tick time 100 with cooldown
interval 15 leaves the pair not ready at time 105, in both leg
orders. -/
theorem cooldown_blocks_until_delay_elapsed_witness :
    c_ready_for_new_orders
      { (c_process_market_pair_inner
            { c_add_markets (freshStrategyState 15) [1, 2] with currentTimestamp := 100 }
            ⟨1, 10, 20, 30⟩ ⟨2, 10, 20, 30⟩ id id 1).1 with currentTimestamp := 105 }
      [⟨1, 10, 20, 30⟩, ⟨2, 10, 20, 30⟩] = false ∧
    c_ready_for_new_orders
      { (c_process_market_pair_inner
            { c_add_markets (freshStrategyState 15) [1, 2] with currentTimestamp := 100 }
            ⟨1, 10, 20, 30⟩ ⟨2, 10, 20, 30⟩ id id 1).1 with currentTimestamp := 105 }
      [⟨2, 10, 20, 30⟩, ⟨1, 10, 20, 30⟩] = false :=
  cooldown_blocks_until_delay_elapsed
    { c_add_markets (freshStrategyState 15) [1, 2] with currentTimestamp := 100 }
    ⟨1, 10, 20, 30⟩ ⟨2, 10, 20, 30⟩ id id 1 _ 105 rfl (by norm_num)
    (by show (105 : ℚ) < 100 + 15; norm_num)

theorem arbLoop_safety (nb na : ℚ → ℚ) (mp : ℚ) :
    ∀ (cb ca : BookLevel) (bl al : ℚ) (bids asks : List BookLevel),
      0 ≤ bl → 0 ≤ al → (∀ b ∈ bids, 0 ≤ b.amount) → (∀ a ∈ asks, 0 ≤ a.amount) →
      (arbLoop nb na mp cb ca bl al bids asks).hitDefensiveBreak = false ∧
      (arbLoop nb na mp cb ca bl al bids asks).steps.length ≤
        bids.length + asks.length + 1 ∧
      (∀ r ∈ (arbLoop nb na mp cb ca bl al bids asks).steps, 0 ≤ r.amount) := by
  intro cb ca bl al bids asks
  induction cb, ca, bl, al, bids, asks using arbLoop.induct nb na mp with
  | case1 cb ca bl al bids asks h1 =>
    intro hbl hal hbs has
    rw [arbLoop.eq_def]
    dsimp only
    rw [if_pos h1]
    simp
  | case2 cb ca bl al bids asks h1 h2 =>
    intro hbl hal hbs has
    rw [arbLoop.eq_def]
    dsimp only
    rw [if_neg h1, if_pos h2]
    simp
  | case3 cb ca bl al h1 h2 h3 b bs a as_ ih =>
    intro hbl hal hbs has
    obtain ⟨ih1, ih2, ih3⟩ := ih (hbs b (by simp)) (has a (by simp))
      (fun x hx => hbs x (by simp [hx])) (fun x hx => has x (by simp [hx]))
    rw [arbLoop.eq_def]
    dsimp only
    rw [if_neg h1, if_neg h2, if_pos h3]
    dsimp only
    refine ⟨ih1, ?_, ?_⟩
    · simp only [List.length_cons]
      omega
    · intro r hr
      rcases List.mem_cons.mp hr with rfl | hr'
      · exact le_min hbl hal
      · exact ih3 r hr'
  | case4 cb ca bl al bids asks h1 h2 h3 hne =>
    intro hbl hal hbs has
    rw [arbLoop.eq_def]
    dsimp only
    rw [if_neg h1, if_neg h2, if_pos h3]
    rcases bids with _ | ⟨b, bs⟩ <;> rcases asks with _ | ⟨a, as_⟩
    · dsimp only
      refine ⟨rfl, by simp, ?_⟩
      intro r hr
      rcases List.mem_cons.mp hr with rfl | hr'
      · exact le_min hbl hal
      · cases hr'
    · dsimp only
      refine ⟨rfl, by simp, ?_⟩
      intro r hr
      rcases List.mem_cons.mp hr with rfl | hr'
      · exact le_min hbl hal
      · cases hr'
    · dsimp only
      refine ⟨rfl, by simp, ?_⟩
      intro r hr
      rcases List.mem_cons.mp hr with rfl | hr'
      · exact le_min hbl hal
      · cases hr'
    · exact (hne b bs a as_ rfl rfl).elim
  | case5 cb ca bl al bids h1 h2 h3 h4 a as_ ih =>
    intro hbl hal hbs has
    obtain ⟨ih1, ih2, ih3⟩ := ih h4.1.le (has a (by simp)) hbs
      (fun x hx => has x (by simp [hx]))
    rw [arbLoop.eq_def]
    dsimp only
    rw [if_neg h1, if_neg h2, if_neg h3, if_pos h4]
    dsimp only
    refine ⟨ih1, ?_, ?_⟩
    · simp only [List.length_cons]
      omega
    · intro r hr
      rcases List.mem_cons.mp hr with rfl | hr'
      · exact le_min hbl hal
      · exact ih3 r hr'
  | case6 cb ca bl al bids h1 h2 h3 h4 =>
    intro hbl hal hbs has
    rw [arbLoop.eq_def]
    dsimp only
    rw [if_neg h1, if_neg h2, if_neg h3, if_pos h4]
    dsimp only
    refine ⟨rfl, by simp, ?_⟩
    intro r hr
    rcases List.mem_cons.mp hr with rfl | hr'
    · exact le_min hbl hal
    · cases hr'
  | case7 cb ca bl al asks h1 h2 h3 h4 h5 b bs ih =>
    intro hbl hal hbs has
    obtain ⟨ih1, ih2, ih3⟩ := ih (hbs b (by simp)) h5.1.le
      (fun x hx => hbs x (by simp [hx])) has
    rw [arbLoop.eq_def]
    dsimp only
    rw [if_neg h1, if_neg h2, if_neg h3, if_neg h4, if_pos h5]
    dsimp only
    refine ⟨ih1, ?_, ?_⟩
    · simp only [List.length_cons]
      omega
    · intro r hr
      rcases List.mem_cons.mp hr with rfl | hr'
      · exact le_min hbl hal
      · exact ih3 r hr'
  | case8 cb ca bl al asks h1 h2 h3 h4 h5 =>
    intro hbl hal hbs has
    rw [arbLoop.eq_def]
    dsimp only
    rw [if_neg h1, if_neg h2, if_neg h3, if_neg h4, if_pos h5]
    dsimp only
    refine ⟨rfl, by simp, ?_⟩
    intro r hr
    rcases List.mem_cons.mp hr with rfl | hr'
    · exact le_min hbl hal
    · cases hr'
  | case9 cb ca bl al bids asks h1 h2 h3 h4 h5 h6 ih =>
    intro hbl hal hbs has
    rcases min_cases bl al with ⟨hm, h0⟩ | ⟨hm, h0⟩ <;> rw [hm] at h6 <;>
      simp only [sub_self, lt_self_iff_false, false_and, and_false] at h6
  | case10 cb ca bl al bids asks h1 h2 h3 h4 h5 h6 =>
    intro hbl hal hbs has
    exfalso
    have hbd : 0 ≤ bl - bl ⊓ al := sub_nonneg.mpr (min_le_left bl al)
    have had : 0 ≤ al - bl ⊓ al := sub_nonneg.mpr (min_le_right bl al)
    rcases hbd.lt_or_eq with hb | hb <;> rcases had.lt_or_eq with ha | ha
    · exact h6 ⟨hb, ha⟩
    · exact h4 ⟨hb, ha.symm⟩
    · exact h5 ⟨ha, hb.symm⟩
    · exact h3 ⟨hb.symm, ha.symm⟩

theorem arbLoop_rows_spec (nb na : ℚ → ℚ) (mp : ℚ)
    (mono_nb : Monotone nb) (mono_na : Monotone na) :
    ∀ (cb ca : BookLevel) (bl al : ℚ) (bids asks : List BookLevel),
      (∀ b ∈ bids, b.price ≤ cb.price) →
      List.Pairwise (fun x y => y.price ≤ x.price) bids →
      (∀ a ∈ asks, ca.price ≤ a.price) →
      List.Pairwise (fun x y => x.price ≤ y.price) asks →
      0 < na ca.price → (∀ a ∈ asks, 0 < na a.price) →
      (∀ r ∈ (arbLoop nb na mp cb ca bl al bids asks).steps,
        r.askPriceAdjusted ≤ r.bidPriceAdjusted ∧ 0 < r.askPriceAdjusted ∧
        r.bidPriceAdjusted ≤ nb cb.price ∧ na ca.price ≤ r.askPriceAdjusted) ∧
      List.Chain' (fun r1 r2 => r2.bidPriceAdjusted / r2.askPriceAdjusted ≤
        r1.bidPriceAdjusted / r1.askPriceAdjusted)
        (arbLoop nb na mp cb ca bl al bids asks).steps := by
  intro cb ca bl al bids asks
  induction cb, ca, bl, al, bids, asks using arbLoop.induct nb na mp with
  | case1 cb ca bl al bids asks h1 =>
    intro hcb hpb hca hpa hpos hposs
    rw [arbLoop.eq_def]
    dsimp only
    rw [if_pos h1]
    simp
  | case2 cb ca bl al bids asks h1 h2 =>
    intro hcb hpb hca hpa hpos hposs
    rw [arbLoop.eq_def]
    dsimp only
    rw [if_neg h1, if_pos h2]
    simp
  | case3 cb ca bl al h1 h2 h3 b bs a as_ ih =>
    intro hcb hpb hca hpa hpos hposs
    obtain ⟨ihm, ihc⟩ := ih (List.pairwise_cons.mp hpb).1 (List.pairwise_cons.mp hpb).2
      (List.pairwise_cons.mp hpa).1 (List.pairwise_cons.mp hpa).2
      (hposs a (by simp)) (fun x hx => hposs x (by simp [hx]))
    have hble : na ca.price ≤ nb cb.price := not_lt.mp h1
    have hbb : nb b.price ≤ nb cb.price := mono_nb (hcb b (by simp))
    have haa : na ca.price ≤ na a.price := mono_na (hca a (by simp))
    rw [arbLoop.eq_def]
    dsimp only
    rw [if_neg h1, if_neg h2, if_pos h3]
    dsimp only
    constructor
    · intro r hr
      rcases List.mem_cons.mp hr with rfl | hr'
      · exact ⟨hble, hpos, le_refl _, le_refl _⟩
      · obtain ⟨f1, f2, f3, f4⟩ := ihm r hr'
        exact ⟨f1, f2, f3.trans hbb, haa.trans f4⟩
    · apply List.chain'_cons'.mpr
      refine ⟨?_, ihc⟩
      intro y hy
      obtain ⟨f1, f2, f3, f4⟩ := ihm y (List.mem_of_mem_head? hy)
      exact div_le_div (hpos.trans_le hble).le (f3.trans hbb) hpos (haa.trans f4)
  | case4 cb ca bl al bids asks h1 h2 h3 hne =>
    intro hcb hpb hca hpa hpos hposs
    have hble : na ca.price ≤ nb cb.price := not_lt.mp h1
    rw [arbLoop.eq_def]
    dsimp only
    rw [if_neg h1, if_neg h2, if_pos h3]
    rcases bids with _ | ⟨b, bs⟩ <;> rcases asks with _ | ⟨a, as_⟩
    case cons.cons => exact (hne b bs a as_ rfl rfl).elim
    all_goals
      refine ⟨fun r hr => ?_, List.chain'_singleton _⟩
    all_goals
      rcases List.mem_cons.mp hr with rfl | hr'
    all_goals
      first
      | exact ⟨hble, hpos, le_refl _, le_refl _⟩
      | cases hr'
  | case5 cb ca bl al bids h1 h2 h3 h4 a as_ ih =>
    intro hcb hpb hca hpa hpos hposs
    obtain ⟨ihm, ihc⟩ := ih hcb hpb
      (List.pairwise_cons.mp hpa).1 (List.pairwise_cons.mp hpa).2
      (hposs a (by simp)) (fun x hx => hposs x (by simp [hx]))
    have hble : na ca.price ≤ nb cb.price := not_lt.mp h1
    have haa : na ca.price ≤ na a.price := mono_na (hca a (by simp))
    rw [arbLoop.eq_def]
    dsimp only
    rw [if_neg h1, if_neg h2, if_neg h3, if_pos h4]
    dsimp only
    constructor
    · intro r hr
      rcases List.mem_cons.mp hr with rfl | hr'
      · exact ⟨hble, hpos, le_refl _, le_refl _⟩
      · obtain ⟨f1, f2, f3, f4⟩ := ihm r hr'
        exact ⟨f1, f2, f3, haa.trans f4⟩
    · apply List.chain'_cons'.mpr
      refine ⟨?_, ihc⟩
      intro y hy
      obtain ⟨f1, f2, f3, f4⟩ := ihm y (List.mem_of_mem_head? hy)
      exact div_le_div (hpos.trans_le hble).le f3 hpos (haa.trans f4)
  | case6 cb ca bl al bids h1 h2 h3 h4 =>
    intro hcb hpb hca hpa hpos hposs
    have hble : na ca.price ≤ nb cb.price := not_lt.mp h1
    rw [arbLoop.eq_def]
    dsimp only
    rw [if_neg h1, if_neg h2, if_neg h3, if_pos h4]
    dsimp only
    refine ⟨fun r hr => ?_, List.chain'_singleton _⟩
    rcases List.mem_cons.mp hr with rfl | hr'
    · exact ⟨hble, hpos, le_refl _, le_refl _⟩
    · cases hr'
  | case7 cb ca bl al asks h1 h2 h3 h4 h5 b bs ih =>
    intro hcb hpb hca hpa hpos hposs
    obtain ⟨ihm, ihc⟩ := ih (List.pairwise_cons.mp hpb).1 (List.pairwise_cons.mp hpb).2
      hca hpa hpos hposs
    have hble : na ca.price ≤ nb cb.price := not_lt.mp h1
    have hbb : nb b.price ≤ nb cb.price := mono_nb (hcb b (by simp))
    rw [arbLoop.eq_def]
    dsimp only
    rw [if_neg h1, if_neg h2, if_neg h3, if_neg h4, if_pos h5]
    dsimp only
    constructor
    · intro r hr
      rcases List.mem_cons.mp hr with rfl | hr'
      · exact ⟨hble, hpos, le_refl _, le_refl _⟩
      · obtain ⟨f1, f2, f3, f4⟩ := ihm r hr'
        exact ⟨f1, f2, f3.trans hbb, f4⟩
    · apply List.chain'_cons'.mpr
      refine ⟨?_, ihc⟩
      intro y hy
      obtain ⟨f1, f2, f3, f4⟩ := ihm y (List.mem_of_mem_head? hy)
      exact div_le_div (hpos.trans_le hble).le (f3.trans hbb) hpos f4
  | case8 cb ca bl al asks h1 h2 h3 h4 h5 =>
    intro hcb hpb hca hpa hpos hposs
    have hble : na ca.price ≤ nb cb.price := not_lt.mp h1
    rw [arbLoop.eq_def]
    dsimp only
    rw [if_neg h1, if_neg h2, if_neg h3, if_neg h4, if_pos h5]
    dsimp only
    refine ⟨fun r hr => ?_, List.chain'_singleton _⟩
    rcases List.mem_cons.mp hr with rfl | hr'
    · exact ⟨hble, hpos, le_refl _, le_refl _⟩
    · cases hr'
  | case9 cb ca bl al bids asks h1 h2 h3 h4 h5 h6 ih =>
    intro hcb hpb hca hpa hpos hposs
    rcases min_cases bl al with ⟨hm, h0⟩ | ⟨hm, h0⟩ <;> rw [hm] at h6 <;>
      simp only [sub_self, lt_self_iff_false, false_and, and_false] at h6
  | case10 cb ca bl al bids asks h1 h2 h3 h4 h5 h6 =>
    intro hcb hpb hca hpa hpos hposs
    have hble : na ca.price ≤ nb cb.price := not_lt.mp h1
    rw [arbLoop.eq_def]
    dsimp only
    rw [if_neg h1, if_neg h2, if_neg h3, if_neg h4, if_neg h5, dif_neg h6]
    refine ⟨fun r hr => ?_, List.chain'_singleton _⟩
    rcases List.mem_cons.mp hr with rfl | hr'
    · exact ⟨hble, hpos, le_refl _, le_refl _⟩
    · cases hr'

theorem depth_nonneg (l : List BookLevel) (h : ∀ b ∈ l, 0 ≤ b.amount) :
    0 ≤ depth l := by
  apply List.sum_nonneg
  intro x hx
  obtain ⟨b, hb, rfl⟩ := List.mem_map.mp hx
  exact h b hb

theorem depth_filter_nonneg (l : List BookLevel) (p : BookLevel → Bool)
    (h : ∀ b ∈ l, 0 ≤ b.amount) : 0 ≤ depth (l.filter p) :=
  depth_nonneg _ (fun b hb => h b (List.mem_of_mem_filter hb))

theorem arbLoop_bid_depth (nb na : ℚ → ℚ) (mp : ℚ) (mono_na : Monotone na)
    (cap0 : ℚ) :
    ∀ (cb ca : BookLevel) (bl al : ℚ) (bids asks : List BookLevel),
      cap0 ≤ na ca.price →
      (∀ a ∈ asks, ca.price ≤ a.price) →
      List.Pairwise (fun x y => x.price ≤ y.price) asks →
      0 ≤ bl →
      (∀ b ∈ bids, 0 ≤ b.amount) →
      rowsAmount (arbLoop nb na mp cb ca bl al bids asks).steps ≤
        (if cap0 ≤ nb cb.price then bl else 0) +
          depth (bids.filter (fun b => decide (cap0 ≤ nb b.price))) := by
  intro cb ca bl al bids asks
  induction cb, ca, bl, al, bids, asks using arbLoop.induct nb na mp with
  | case1 cb ca bl al bids asks h1 =>
    intro hthr hca hpa hbl hbs
    rw [arbLoop.eq_def]
    dsimp only
    rw [if_pos h1]
    have h0 := depth_filter_nonneg bids (fun b => decide (cap0 ≤ nb b.price)) hbs
    simp only [rowsAmount, List.map_nil, List.sum_nil]
    split_ifs <;> linarith
  | case2 cb ca bl al bids asks h1 h2 =>
    intro hthr hca hpa hbl hbs
    rw [arbLoop.eq_def]
    dsimp only
    rw [if_neg h1, if_pos h2]
    have h0 := depth_filter_nonneg bids (fun b => decide (cap0 ≤ nb b.price)) hbs
    simp only [rowsAmount, List.map_nil, List.sum_nil]
    split_ifs <;> linarith
  | case3 cb ca bl al h1 h2 h3 b bs a as_ ih =>
    intro hthr hca hpa hbl hbs
    have hcap : cap0 ≤ nb cb.price := hthr.trans (not_lt.mp h1)
    have hthr' : cap0 ≤ na a.price := hthr.trans (mono_na (hca a (by simp)))
    have ihx := ih hthr' (List.pairwise_cons.mp hpa).1 (List.pairwise_cons.mp hpa).2
      (hbs b (by simp)) (fun x hx => hbs x (by simp [hx]))
    have hmin : bl ⊓ al = bl := (sub_eq_zero.mp h3.1).symm
    rw [arbLoop.eq_def]
    dsimp only
    rw [if_neg h1, if_neg h2, if_pos h3]
    dsimp only
    rw [if_pos hcap]
    simp only [rowsAmount, List.map_cons, List.sum_cons] at ihx ⊢
    rw [List.filter_cons]
    simp only [decide_eq_true_eq]
    by_cases hpb : cap0 ≤ nb b.price
    · rw [if_pos hpb] at ihx ⊢
      simp only [depth, List.map_cons, List.sum_cons] at ihx ⊢
      simp only [hmin] at ihx ⊢
      linarith
    · rw [if_neg hpb] at ihx ⊢
      simp only [depth] at ihx ⊢
      simp only [hmin] at ihx ⊢
      linarith
  | case4 cb ca bl al bids asks h1 h2 h3 hne =>
    intro hthr hca hpa hbl hbs
    have hcap : cap0 ≤ nb cb.price := hthr.trans (not_lt.mp h1)
    have h0 := depth_filter_nonneg bids (fun b => decide (cap0 ≤ nb b.price)) hbs
    have hminle : bl ⊓ al ≤ bl := min_le_left bl al
    rw [arbLoop.eq_def]
    dsimp only
    rw [if_neg h1, if_neg h2, if_pos h3]
    rcases bids with _ | ⟨b, bs⟩ <;> rcases asks with _ | ⟨a, as_⟩
    case cons.cons => exact (hne b bs a as_ rfl rfl).elim
    all_goals
      rw [if_pos hcap]
      simp only [rowsAmount, List.map_cons, List.map_nil, List.sum_cons, List.sum_nil]
      simp only [depth] at h0 ⊢
      linarith
  | case5 cb ca bl al bids h1 h2 h3 h4 a as_ ih =>
    intro hthr hca hpa hbl hbs
    have hcap : cap0 ≤ nb cb.price := hthr.trans (not_lt.mp h1)
    have hthr' : cap0 ≤ na a.price := hthr.trans (mono_na (hca a (by simp)))
    have ihx := ih hthr' (List.pairwise_cons.mp hpa).1 (List.pairwise_cons.mp hpa).2
      h4.1.le hbs
    have hmin : bl ⊓ al = al := by
      have := h4.2
      rcases min_cases bl al with ⟨hm, h0⟩ | ⟨hm, h0⟩
      · rw [hm] at this ⊢
        linarith [sub_eq_zero.mp this]
      · exact hm
    rw [arbLoop.eq_def]
    dsimp only
    rw [if_neg h1, if_neg h2, if_neg h3, if_pos h4]
    dsimp only
    rw [if_pos hcap] at ihx ⊢
    simp only [rowsAmount, List.map_cons, List.sum_cons] at ihx ⊢
    linarith
  | case6 cb ca bl al bids h1 h2 h3 h4 =>
    intro hthr hca hpa hbl hbs
    have hcap : cap0 ≤ nb cb.price := hthr.trans (not_lt.mp h1)
    have h0 := depth_filter_nonneg bids (fun b => decide (cap0 ≤ nb b.price)) hbs
    have hminle : bl ⊓ al ≤ bl := min_le_left bl al
    rw [arbLoop.eq_def]
    dsimp only
    rw [if_neg h1, if_neg h2, if_neg h3, if_pos h4]
    dsimp only
    rw [if_pos hcap]
    simp only [rowsAmount, List.map_cons, List.map_nil, List.sum_cons, List.sum_nil]
    linarith
  | case7 cb ca bl al asks h1 h2 h3 h4 h5 b bs ih =>
    intro hthr hca hpa hbl hbs
    have hcap : cap0 ≤ nb cb.price := hthr.trans (not_lt.mp h1)
    have ihx := ih hthr hca hpa (hbs b (by simp)) (fun x hx => hbs x (by simp [hx]))
    have hmin : bl ⊓ al = bl := (sub_eq_zero.mp h5.2).symm
    rw [arbLoop.eq_def]
    dsimp only
    rw [if_neg h1, if_neg h2, if_neg h3, if_neg h4, if_pos h5]
    dsimp only
    rw [if_pos hcap]
    simp only [rowsAmount, List.map_cons, List.sum_cons] at ihx ⊢
    rw [List.filter_cons]
    simp only [decide_eq_true_eq]
    by_cases hpb : cap0 ≤ nb b.price
    · rw [if_pos hpb] at ihx ⊢
      simp only [depth, List.map_cons, List.sum_cons] at ihx ⊢
      simp only [hmin] at ihx ⊢
      linarith
    · rw [if_neg hpb] at ihx ⊢
      simp only [depth] at ihx ⊢
      simp only [hmin] at ihx ⊢
      linarith
  | case8 cb ca bl al asks h1 h2 h3 h4 h5 =>
    intro hthr hca hpa hbl hbs
    have hcap : cap0 ≤ nb cb.price := hthr.trans (not_lt.mp h1)
    have h0 := depth_filter_nonneg ([] : List BookLevel)
      (fun b => decide (cap0 ≤ nb b.price)) (by simp)
    have hminle : bl ⊓ al ≤ bl := min_le_left bl al
    rw [arbLoop.eq_def]
    dsimp only
    rw [if_neg h1, if_neg h2, if_neg h3, if_neg h4, if_pos h5]
    dsimp only
    rw [if_pos hcap]
    simp only [rowsAmount, List.map_cons, List.map_nil, List.sum_cons, List.sum_nil]
    simp only [depth, List.filter_nil, List.map_nil, List.sum_nil]
    linarith
  | case9 cb ca bl al bids asks h1 h2 h3 h4 h5 h6 ih =>
    intro hthr hca hpa hbl hbs
    rcases min_cases bl al with ⟨hm, h0⟩ | ⟨hm, h0⟩ <;> rw [hm] at h6 <;>
      simp only [sub_self, lt_self_iff_false, false_and, and_false] at h6
  | case10 cb ca bl al bids asks h1 h2 h3 h4 h5 h6 =>
    intro hthr hca hpa hbl hbs
    have hcap : cap0 ≤ nb cb.price := hthr.trans (not_lt.mp h1)
    have h0 := depth_filter_nonneg bids (fun b => decide (cap0 ≤ nb b.price)) hbs
    have hminle : bl ⊓ al ≤ bl := min_le_left bl al
    rw [arbLoop.eq_def]
    dsimp only
    rw [if_neg h1, if_neg h2, if_neg h3, if_neg h4, if_neg h5, dif_neg h6]
    rw [if_pos hcap]
    simp only [rowsAmount, List.map_cons, List.map_nil, List.sum_cons, List.sum_nil]
    linarith

theorem arbLoop_ask_depth (nb na : ℚ → ℚ) (mp : ℚ) (mono_nb : Monotone nb)
    (cbp0 : ℚ) :
    ∀ (cb ca : BookLevel) (bl al : ℚ) (bids asks : List BookLevel),
      nb cb.price ≤ cbp0 →
      (∀ b ∈ bids, b.price ≤ cb.price) →
      List.Pairwise (fun x y => y.price ≤ x.price) bids →
      0 ≤ al →
      (∀ a ∈ asks, 0 ≤ a.amount) →
      rowsAmount (arbLoop nb na mp cb ca bl al bids asks).steps ≤
        (if na ca.price ≤ cbp0 then al else 0) +
          depth (asks.filter (fun a => decide (na a.price ≤ cbp0))) := by
  intro cb ca bl al bids asks
  induction cb, ca, bl, al, bids, asks using arbLoop.induct nb na mp with
  | case1 cb ca bl al bids asks h1 =>
    intro hthr hcb hpb hal has
    rw [arbLoop.eq_def]
    dsimp only
    rw [if_pos h1]
    have h0 := depth_filter_nonneg asks (fun a => decide (na a.price ≤ cbp0)) has
    simp only [rowsAmount, List.map_nil, List.sum_nil]
    split_ifs <;> linarith
  | case2 cb ca bl al bids asks h1 h2 =>
    intro hthr hcb hpb hal has
    rw [arbLoop.eq_def]
    dsimp only
    rw [if_neg h1, if_pos h2]
    have h0 := depth_filter_nonneg asks (fun a => decide (na a.price ≤ cbp0)) has
    simp only [rowsAmount, List.map_nil, List.sum_nil]
    split_ifs <;> linarith
  | case3 cb ca bl al h1 h2 h3 b bs a as_ ih =>
    intro hthr hcb hpb hal has
    have hcap : na ca.price ≤ cbp0 := (not_lt.mp h1).trans hthr
    have hthr' : nb b.price ≤ cbp0 := (mono_nb (hcb b (by simp))).trans hthr
    have ihx := ih hthr' (List.pairwise_cons.mp hpb).1 (List.pairwise_cons.mp hpb).2
      (has a (by simp)) (fun x hx => has x (by simp [hx]))
    have hmin : bl ⊓ al = al := by
      have := h3.2
      rcases min_cases bl al with ⟨hm, h0⟩ | ⟨hm, h0⟩
      · rw [hm] at this ⊢
        linarith [sub_eq_zero.mp this]
      · exact hm
    rw [arbLoop.eq_def]
    dsimp only
    rw [if_neg h1, if_neg h2, if_pos h3]
    dsimp only
    rw [if_pos hcap]
    simp only [rowsAmount, List.map_cons, List.sum_cons] at ihx ⊢
    rw [List.filter_cons]
    simp only [decide_eq_true_eq]
    by_cases hpa' : na a.price ≤ cbp0
    · rw [if_pos hpa'] at ihx ⊢
      simp only [depth, List.map_cons, List.sum_cons] at ihx ⊢
      simp only [hmin] at ihx ⊢
      linarith
    · rw [if_neg hpa'] at ihx ⊢
      simp only [depth] at ihx ⊢
      simp only [hmin] at ihx ⊢
      linarith
  | case4 cb ca bl al bids asks h1 h2 h3 hne =>
    intro hthr hcb hpb hal has
    have hcap : na ca.price ≤ cbp0 := (not_lt.mp h1).trans hthr
    have h0 := depth_filter_nonneg asks (fun a => decide (na a.price ≤ cbp0)) has
    have hminle : bl ⊓ al ≤ al := min_le_right bl al
    rw [arbLoop.eq_def]
    dsimp only
    rw [if_neg h1, if_neg h2, if_pos h3]
    rcases bids with _ | ⟨b, bs⟩ <;> rcases asks with _ | ⟨a, as_⟩
    case cons.cons => exact (hne b bs a as_ rfl rfl).elim
    all_goals
      rw [if_pos hcap]
      simp only [rowsAmount, List.map_cons, List.map_nil, List.sum_cons, List.sum_nil]
      simp only [depth] at h0 ⊢
      linarith
  | case5 cb ca bl al bids h1 h2 h3 h4 a as_ ih =>
    intro hthr hcb hpb hal has
    have hcap : na ca.price ≤ cbp0 := (not_lt.mp h1).trans hthr
    have ihx := ih hthr hcb hpb (has a (by simp)) (fun x hx => has x (by simp [hx]))
    have hmin : bl ⊓ al = al := by
      have := h4.2
      rcases min_cases bl al with ⟨hm, h0⟩ | ⟨hm, h0⟩
      · rw [hm] at this ⊢
        linarith [sub_eq_zero.mp this]
      · exact hm
    rw [arbLoop.eq_def]
    dsimp only
    rw [if_neg h1, if_neg h2, if_neg h3, if_pos h4]
    dsimp only
    rw [if_pos hcap]
    simp only [rowsAmount, List.map_cons, List.sum_cons] at ihx ⊢
    rw [List.filter_cons]
    simp only [decide_eq_true_eq]
    by_cases hpa' : na a.price ≤ cbp0
    · rw [if_pos hpa'] at ihx ⊢
      simp only [depth, List.map_cons, List.sum_cons] at ihx ⊢
      simp only [hmin] at ihx ⊢
      linarith
    · rw [if_neg hpa'] at ihx ⊢
      simp only [depth] at ihx ⊢
      simp only [hmin] at ihx ⊢
      linarith
  | case6 cb ca bl al bids h1 h2 h3 h4 =>
    intro hthr hcb hpb hal has
    have hcap : na ca.price ≤ cbp0 := (not_lt.mp h1).trans hthr
    have hminle : bl ⊓ al ≤ al := min_le_right bl al
    rw [arbLoop.eq_def]
    dsimp only
    rw [if_neg h1, if_neg h2, if_neg h3, if_pos h4]
    dsimp only
    rw [if_pos hcap]
    simp only [rowsAmount, List.map_cons, List.map_nil, List.sum_cons, List.sum_nil]
    simp only [depth, List.filter_nil, List.map_nil, List.sum_nil]
    linarith
  | case7 cb ca bl al asks h1 h2 h3 h4 h5 b bs ih =>
    intro hthr hcb hpb hal has
    have hcap : na ca.price ≤ cbp0 := (not_lt.mp h1).trans hthr
    have hthr' : nb b.price ≤ cbp0 := (mono_nb (hcb b (by simp))).trans hthr
    have ihx := ih hthr' (List.pairwise_cons.mp hpb).1 (List.pairwise_cons.mp hpb).2
      h5.1.le has
    rw [arbLoop.eq_def]
    dsimp only
    rw [if_neg h1, if_neg h2, if_neg h3, if_neg h4, if_pos h5]
    dsimp only
    rw [if_pos hcap] at ihx ⊢
    simp only [rowsAmount, List.map_cons, List.sum_cons] at ihx ⊢
    have hminle : bl ⊓ al ≤ al := min_le_right bl al
    linarith
  | case8 cb ca bl al asks h1 h2 h3 h4 h5 =>
    intro hthr hcb hpb hal has
    have hcap : na ca.price ≤ cbp0 := (not_lt.mp h1).trans hthr
    have h0 := depth_filter_nonneg asks (fun a => decide (na a.price ≤ cbp0)) has
    have hminle : bl ⊓ al ≤ al := min_le_right bl al
    rw [arbLoop.eq_def]
    dsimp only
    rw [if_neg h1, if_neg h2, if_neg h3, if_neg h4, if_pos h5]
    dsimp only
    rw [if_pos hcap]
    simp only [rowsAmount, List.map_cons, List.map_nil, List.sum_cons, List.sum_nil]
    simp only [depth] at h0 ⊢
    linarith
  | case9 cb ca bl al bids asks h1 h2 h3 h4 h5 h6 ih =>
    intro hthr hcb hpb hal has
    rcases min_cases bl al with ⟨hm, h0⟩ | ⟨hm, h0⟩ <;> rw [hm] at h6 <;>
      simp only [sub_self, lt_self_iff_false, false_and, and_false] at h6
  | case10 cb ca bl al bids asks h1 h2 h3 h4 h5 h6 =>
    intro hthr hcb hpb hal has
    have hcap : na ca.price ≤ cbp0 := (not_lt.mp h1).trans hthr
    have h0 := depth_filter_nonneg asks (fun a => decide (na a.price ≤ cbp0)) has
    have hminle : bl ⊓ al ≤ al := min_le_right bl al
    rw [arbLoop.eq_def]
    dsimp only
    rw [if_neg h1, if_neg h2, if_neg h3, if_neg h4, if_neg h5, dif_neg h6]
    rw [if_pos hcap]
    simp only [rowsAmount, List.map_cons, List.map_nil, List.sum_cons, List.sum_nil]
    linarith

/-- C9 (status: confirmed). With non-negative level sizes, the
matching loop of `c_find_profitable_arbitrage_orders` never reaches
the defensive `else: break` branch for negative leftovers (after each
emitted step the min-sized subtraction zeroes at least one leftover,
and both stay non-negative), every emitted step amount is
non-negative, and the loop terminates — the embedded loop is a total
function whose output length is bounded by the number of price levels
of the two books. -/
theorem matching_loop_never_defensive_break (nb na : ℚ → ℚ) (mp : ℚ)
    (bids asks : List BookLevel)
    (hbs : ∀ b ∈ bids, 0 ≤ b.amount) (has : ∀ a ∈ asks, 0 ≤ a.amount) :
    (c_find_profitable_arbitrage_orders nb na mp bids asks).hitDefensiveBreak = false ∧
    (c_find_profitable_arbitrage_orders nb na mp bids asks).steps.length ≤
      bids.length + asks.length ∧
    (∀ r ∈ (c_find_profitable_arbitrage_orders nb na mp bids asks).steps,
      0 ≤ r.amount) := by
  rcases bids with _ | ⟨b, bs⟩
  · exact ⟨rfl, by simp [c_find_profitable_arbitrage_orders], by
      intro r hr
      simp [c_find_profitable_arbitrage_orders] at hr⟩
  rcases asks with _ | ⟨a, as_⟩
  · exact ⟨rfl, by simp [c_find_profitable_arbitrage_orders], by
      intro r hr
      simp [c_find_profitable_arbitrage_orders] at hr⟩
  · have heq : c_find_profitable_arbitrage_orders nb na mp (b :: bs) (a :: as_) =
        arbLoop nb na mp b a b.amount a.amount bs as_ := rfl
    obtain ⟨h1, h2, h3⟩ := arbLoop_safety nb na mp b a b.amount a.amount bs as_
      (hbs b (by simp)) (has a (by simp))
      (fun x hx => hbs x (by simp [hx])) (fun x hx => has x (by simp [hx]))
    rw [heq]
    refine ⟨h1, ?_, h3⟩
    simp only [List.length_cons]
    omega

/-- C9 witness: the loop on the concrete crossed books
bids `[(102,1),(101,2)]`, asks `[(100,2),(103,5)]`. -/
theorem matching_loop_never_defensive_break_witness :
    (c_find_profitable_arbitrage_orders id id 0
        [⟨102, 1⟩, ⟨101, 2⟩] [⟨100, 2⟩, ⟨103, 5⟩]).hitDefensiveBreak = false ∧
    (c_find_profitable_arbitrage_orders id id 0
        [⟨102, 1⟩, ⟨101, 2⟩] [⟨100, 2⟩, ⟨103, 5⟩]).steps.length ≤ 4 ∧
    (∀ r ∈ (c_find_profitable_arbitrage_orders id id 0
        [⟨102, 1⟩, ⟨101, 2⟩] [⟨100, 2⟩, ⟨103, 5⟩]).steps, 0 ≤ r.amount) :=
  matching_loop_never_defensive_break id id 0
    [⟨102, 1⟩, ⟨101, 2⟩] [⟨100, 2⟩, ⟨103, 5⟩] (by decide) (by decide)

/-- C2 (status: confirmed). For sorted order books with crossing
normalized tops (monotone positive normalization of the ask side),
the emitted step sequence of `c_find_profitable_arbitrage_orders` is
profitable at every step (normalized bid ≥ normalized ask), has
non-increasing bid/ask price ratios, and its total matched amount is
bounded by the smaller of the bid depth still priced at or above the
normalized best ask and the ask depth still priced at or below the
normalized best bid — the depth available up to the crossing point. -/
theorem matching_loop_steps_spec (nb na : ℚ → ℚ) (mp : ℚ)
    (b0 a0 : BookLevel) (bs as_ : List BookLevel)
    (mono_nb : Monotone nb) (mono_na : Monotone na)
    (hpb : List.Pairwise (fun x y => y.price ≤ x.price) (b0 :: bs))
    (hpa : List.Pairwise (fun x y => x.price ≤ y.price) (a0 :: as_))
    (hposs : ∀ a ∈ a0 :: as_, 0 < na a.price)
    (hbamt : ∀ b ∈ b0 :: bs, 0 ≤ b.amount)
    (haamt : ∀ a ∈ a0 :: as_, 0 ≤ a.amount)
    (hcross : na a0.price ≤ nb b0.price) :
    (∀ r ∈ (c_find_profitable_arbitrage_orders nb na mp (b0 :: bs) (a0 :: as_)).steps,
      r.askPriceAdjusted ≤ r.bidPriceAdjusted) ∧
    List.Chain' (fun r1 r2 => r2.bidPriceAdjusted / r2.askPriceAdjusted ≤
        r1.bidPriceAdjusted / r1.askPriceAdjusted)
      (c_find_profitable_arbitrage_orders nb na mp (b0 :: bs) (a0 :: as_)).steps ∧
    rowsAmount (c_find_profitable_arbitrage_orders nb na mp (b0 :: bs) (a0 :: as_)).steps ≤
      min
        (depth ((b0 :: bs).filter (fun b => decide (na a0.price ≤ nb b.price))))
        (depth ((a0 :: as_).filter (fun a => decide (na a.price ≤ nb b0.price)))) := by
  have heq : c_find_profitable_arbitrage_orders nb na mp (b0 :: bs) (a0 :: as_) =
      arbLoop nb na mp b0 a0 b0.amount a0.amount bs as_ := rfl
  obtain ⟨hm, hc⟩ := arbLoop_rows_spec nb na mp mono_nb mono_na b0 a0
    b0.amount a0.amount bs as_
    (List.pairwise_cons.mp hpb).1 (List.pairwise_cons.mp hpb).2
    (List.pairwise_cons.mp hpa).1 (List.pairwise_cons.mp hpa).2
    (hposs a0 (by simp)) (fun x hx => hposs x (by simp [hx]))
  have hbd := arbLoop_bid_depth nb na mp mono_na (na a0.price) b0 a0
    b0.amount a0.amount bs as_ (le_refl _)
    (List.pairwise_cons.mp hpa).1 (List.pairwise_cons.mp hpa).2
    (hbamt b0 (by simp)) (fun x hx => hbamt x (by simp [hx]))
  have had := arbLoop_ask_depth nb na mp mono_nb (nb b0.price) b0 a0
    b0.amount a0.amount bs as_ (le_refl _)
    (List.pairwise_cons.mp hpb).1 (List.pairwise_cons.mp hpb).2
    (haamt a0 (by simp)) (fun x hx => haamt x (by simp [hx]))
  rw [heq]
  refine ⟨fun r hr => (hm r hr).1, hc, le_min ?_ ?_⟩
  · rw [if_pos hcross] at hbd
    rw [List.filter_cons]
    simp only [decide_eq_true_eq, if_pos hcross]
    simp only [depth, List.map_cons, List.sum_cons] at hbd ⊢
    linarith
  · rw [if_pos hcross] at had
    rw [List.filter_cons]
    simp only [decide_eq_true_eq, if_pos hcross]
    simp only [depth, List.map_cons, List.sum_cons] at had ⊢
    linarith

/-- C2 witness: concrete crossed books with identity normalization —
bids `[(102,1),(101,2)]`, asks `[(100,2),(103,5)]` at zero minimum
profitability. -/
theorem matching_loop_steps_spec_witness :
    (∀ r ∈ (c_find_profitable_arbitrage_orders id id 0
        [⟨102, 1⟩, ⟨101, 2⟩] [⟨100, 2⟩, ⟨103, 5⟩]).steps,
      r.askPriceAdjusted ≤ r.bidPriceAdjusted) ∧
    List.Chain' (fun r1 r2 => r2.bidPriceAdjusted / r2.askPriceAdjusted ≤
        r1.bidPriceAdjusted / r1.askPriceAdjusted)
      (c_find_profitable_arbitrage_orders id id 0
        [⟨102, 1⟩, ⟨101, 2⟩] [⟨100, 2⟩, ⟨103, 5⟩]).steps ∧
    rowsAmount (c_find_profitable_arbitrage_orders id id 0
        [⟨102, 1⟩, ⟨101, 2⟩] [⟨100, 2⟩, ⟨103, 5⟩]).steps ≤
      min
        (depth ([⟨102, 1⟩, ⟨101, 2⟩].filter
          (fun b : BookLevel => decide ((100 : ℚ) ≤ id b.price))))
        (depth ([⟨100, 2⟩, ⟨103, 5⟩].filter
          (fun a : BookLevel => decide (id a.price ≤ (102 : ℚ))))) :=
  matching_loop_steps_spec id id 0 ⟨102, 1⟩ ⟨100, 2⟩ [⟨101, 2⟩] [⟨103, 5⟩]
    monotone_id monotone_id
    (by decide) (by decide) (by decide) (by decide) (by decide) (by decide)
